import Mathlib

/-!
Shallow embedding of the resource-management core of the
`sales-insights-agent` backend: the TTL/capacity response cache
(`backend/middleware/cache.py`), the three-window rate limiter
(`backend/middleware/rate_limiter.py`), the Databricks connection pool
(`backend/analytics/connection_pool.py`) and the cached schema discovery
(`backend/analytics/schema.py`).

Conventions of the embedding:
* wall-clock time (`time.time()`) is passed explicitly as a rational `now`;
* Python dicts keyed by the 32-hex-digit cache key are modelled as
  insertion-ordered association lists over an abstract key type `Nat`
  (assignment to an existing key keeps its position, a new key is appended,
  exactly like a CPython dict);
* fallible paths (Python exceptions) return `Option`/sum results;
* mutation is explicit state passing.
-/

namespace SalesInsights

/-! ## backend/middleware/cache.py -/

/-- Python `CacheEntry`: a single cache entry with metadata (value, creation time,
time-to-live, per-entry hit counter). -/
structure CacheEntry (α : Type) where
  value : α
  created_at : ℚ
  ttl : ℚ
  hits : ℕ := 0
  deriving Repr, DecidableEq

/-- Python `CacheEntry.is_expired`: `time.time() > self.created_at + self.ttl`,
with the current wall-clock time passed explicitly. -/
def CacheEntry.is_expired {α : Type} (e : CacheEntry α) (now : ℚ) : Bool :=
  now > e.created_at + e.ttl

/-- Python `CacheEntry.get_age`: age of the entry in seconds. -/
def CacheEntry.get_age {α : Type} (e : CacheEntry α) (now : ℚ) : ℚ :=
  now - e.created_at

/-- Python `CacheStats`: global cache statistics counters. -/
structure CacheStats where
  hits : ℕ := 0
  misses : ℕ := 0
  evictions : ℕ := 0
  total_entries : ℕ := 0
  deriving Repr, DecidableEq

/-- Python `CacheStats.hit_rate`: `(hits / total * 100) if total > 0 else 0.0`
where `total = hits + misses`; real division modelled over ℚ. -/
def CacheStats.hit_rate (s : CacheStats) : ℚ :=
  if s.hits + s.misses > 0 then
    (s.hits : ℚ) / ((s.hits : ℚ) + (s.misses : ℚ)) * 100
  else 0

/-- The `_cache` dict of `ResponseCache`, as an insertion-ordered
association list from (abstract) keys to entries. -/
abbrev CacheDict (α : Type) := List (ℕ × CacheEntry α)

/-- Dict lookup `self._cache.get(key)`: first pair with the given key. -/
def dictGet {α : Type} (c : CacheDict α) (k : ℕ) : Option (CacheEntry α) :=
  (c.find? (fun p => p.1 == k)).map Prod.snd

/-- Dict assignment `self._cache[key] = entry`: replace in place when the
key is present (CPython dicts keep the insertion position), append
otherwise. -/
def dictSet {α : Type} : CacheDict α → ℕ → CacheEntry α → CacheDict α
  | [], k, e => [(k, e)]
  | (k', e') :: rest, k, e =>
    if k' == k then (k, e) :: rest else (k', e') :: dictSet rest k e

/-- Dict deletion `del self._cache[key]`: remove the pair with that key. -/
def dictDel {α : Type} (c : CacheDict α) (k : ℕ) : CacheDict α :=
  c.eraseP (fun p => p.1 == k)

/-- Python `ResponseCache`: in-memory response cache with TTL support.
Mirrors `__init__` fields: configuration, the `_cache` dict, the stats
record and the throttling timestamp of the periodic cleanup. -/
structure ResponseCache (α : Type) where
  default_ttl : ℚ := 300
  max_entries : ℕ := 1000
  cleanup_interval : ℚ := 60
  cache : CacheDict α := []
  stats : CacheStats := {}
  last_cleanup : ℚ
  deriving Repr, DecidableEq

/-- Python `ResponseCache.__init__`: empty dict, zeroed stats,
`_last_cleanup = time.time()`. -/
def ResponseCache.init (α : Type) (default_ttl : ℚ := 300)
    (max_entries : ℕ := 1000) (cleanup_interval : ℚ := 60)
    (now : ℚ := 0) : ResponseCache α :=
  { default_ttl := default_ttl
    max_entries := max_entries
    cleanup_interval := cleanup_interval
    cache := []
    stats := {}
    last_cleanup := now }

/-- Python `ResponseCache._cleanup_expired`: throttled sweep; when at least
`cleanup_interval` has passed since the last sweep, delete every expired
entry, count each as an eviction, refresh `total_entries` and
`_last_cleanup`. -/
def ResponseCache.cleanup_expired {α : Type} (s : ResponseCache α)
    (now : ℚ) : ResponseCache α :=
  if now - s.last_cleanup < s.cleanup_interval then s
  else
    let kept := s.cache.filter (fun p => !(p.2.is_expired now))
    let removed := s.cache.length - kept.length
    { s with
      cache := kept
      stats := { s.stats with
        evictions := s.stats.evictions + removed
        total_entries := kept.length }
      last_cleanup := now }

/-- Python's `min(iterable, key=...)` over `(key, created_at)`: fold that
replaces the current best only on a strictly smaller `created_at`, so the
first minimal element in iteration order wins. -/
def minFold {α : Type} (best : ℕ × ℚ) : CacheDict α → ℕ × ℚ
  | [] => best
  | p :: rest =>
    if p.2.created_at < best.2 then minFold (p.1, p.2.created_at) rest
    else minFold best rest

/-- Python `min(self._cache.keys(), key=lambda k: self._cache[k].created_at)`;
`none` models the `ValueError` Python's `min` raises on an empty dict. -/
def minByCreated {α : Type} : CacheDict α → Option ℕ
  | [] => none
  | p :: rest => some (minFold (p.1, p.2.created_at) rest).1

/-- Python `ResponseCache._evict_lru`: when the cache has reached `max_entries`,
delete the entry with the smallest `created_at` and count an eviction.
`none` models the `ValueError` of `min` over an empty dict (only possible
when `max_entries = 0`). -/
def ResponseCache.evict_lru {α : Type} (s : ResponseCache α) :
    Option (ResponseCache α) :=
  if s.cache.length < s.max_entries then some s
  else
    match minByCreated s.cache with
    | none => none
    | some oldest =>
      some { s with
        cache := dictDel s.cache oldest
        stats := { s.stats with evictions := s.stats.evictions + 1 } }

/-- Python `ResponseCache.get`: run the throttled cleanup, then look the key up;
a missing key is a miss, an expired entry is deleted and counted as a miss
plus an eviction, otherwise the entry's and the global hit counters are
bumped and the value returned. -/
def ResponseCache.get {α : Type} (s : ResponseCache α) (k : ℕ)
    (now : ℚ) : Option α × ResponseCache α :=
  let s := s.cleanup_expired now
  match dictGet s.cache k with
  | none =>
    (none, { s with stats := { s.stats with misses := s.stats.misses + 1 } })
  | some e =>
    if e.is_expired now then
      (none, { s with
        cache := dictDel s.cache k
        stats := { s.stats with
          misses := s.stats.misses + 1
          evictions := s.stats.evictions + 1 } })
    else
      (some e.value, { s with
        cache := dictSet s.cache k { e with hits := e.hits + 1 }
        stats := { s.stats with hits := s.stats.hits + 1 } })

/-- Python `ResponseCache.set`: throttled cleanup, capacity eviction, then store
the entry under the key with `created_at = time.time()` and the requested
(or default) TTL and refresh `total_entries`. `none` models the
`ValueError` escaping from `_evict_lru`. -/
def ResponseCache.set {α : Type} (s : ResponseCache α) (k : ℕ) (v : α)
    (ttl : Option ℚ) (now : ℚ) : Option (ℕ × ResponseCache α) :=
  let s := s.cleanup_expired now
  match s.evict_lru with
  | none => none
  | some s =>
    let entry : CacheEntry α :=
      { value := v, created_at := now, ttl := ttl.getD s.default_ttl }
    let c := dictSet s.cache k entry
    some (k, { s with
      cache := c
      stats := { s.stats with total_entries := c.length } })

/-- Python `ResponseCache.invalidate`: with no key-parts (`none`) clear the whole
dict counting every entry as an eviction; with a specific key delete it
when present (one eviction) and report how many entries went away. -/
def ResponseCache.invalidate {α : Type} (s : ResponseCache α)
    (k : Option ℕ) : ℕ × ResponseCache α :=
  match k with
  | none =>
    let count := s.cache.length
    (count, { s with
      cache := []
      stats := { s.stats with
        evictions := s.stats.evictions + count
        total_entries := 0 } })
  | some key =>
    if (dictGet s.cache key).isSome then
      let c := dictDel s.cache key
      (1, { s with
        cache := c
        stats := { s.stats with
          evictions := s.stats.evictions + 1
          total_entries := c.length } })
    else (0, s)

/-! ## backend/middleware/rate_limiter.py -/

/-- Python `RateLimitConfig`: static rate-limiting policy. -/
structure RateLimitConfig where
  requests_per_minute : ℕ := 10
  requests_per_hour : ℕ := 100
  burst_limit : ℕ := 5
  deriving Repr, DecidableEq

/-- Python `UserRateData`: per-identity timestamp lists for the three windows. -/
structure UserRateData where
  minute_requests : List ℚ := []
  hour_requests : List ℚ := []
  burst_requests : List ℚ := []
  deriving Repr, DecidableEq

/-- Python `RateLimiter._cleanup_old_requests`: keep only timestamps strictly
inside each window's horizon (60 s, 3600 s, 10 s). -/
def cleanup_old_requests (d : UserRateData) (now : ℚ) : UserRateData :=
  { minute_requests := d.minute_requests.filter (fun t => t > now - 60)
    hour_requests := d.hour_requests.filter (fun t => t > now - 3600)
    burst_requests := d.burst_requests.filter (fun t => t > now - 10) }

/-- Result of `RateLimiter.check_limit`: either the allowed branch with its
remaining-capacity counts, or a rejection with `limit_type` and
`retry_after`. -/
inductive CheckOutcome where
  | allowed (remaining_minute remaining_hour remaining_burst : ℤ)
  | rejected (limit_type : String) (retry_after : ℚ)
  deriving Repr, DecidableEq

/-- Python `RateLimiter.check_limit` on one identity's data: prune the three
lists, test burst then minute then hour (first violated tier rejects, with
`retry_after` measured from that window's oldest timestamp), otherwise
append `now` to all three lists and report the remaining capacities.
`none` models the `IndexError` of `list[0]` on an empty list (only
possible when the violated tier's limit is 0). -/
def check_limit (cfg : RateLimitConfig) (d : UserRateData) (now : ℚ) :
    Option (CheckOutcome × UserRateData) :=
  let d := cleanup_old_requests d now
  if d.burst_requests.length ≥ cfg.burst_limit then
    match d.burst_requests.head? with
    | none => none
    | some oldest =>
      some (.rejected "burst" (10 - (now - oldest)), d)
  else if d.minute_requests.length ≥ cfg.requests_per_minute then
    match d.minute_requests.head? with
    | none => none
    | some oldest =>
      some (.rejected "minute" (60 - (now - oldest)), d)
  else if d.hour_requests.length ≥ cfg.requests_per_hour then
    match d.hour_requests.head? with
    | none => none
    | some oldest =>
      some (.rejected "hour" (3600 - (now - oldest)), d)
  else
    let d : UserRateData :=
      { minute_requests := d.minute_requests ++ [now]
        hour_requests := d.hour_requests ++ [now]
        burst_requests := d.burst_requests ++ [now] }
    some (.allowed
      ((cfg.requests_per_minute : ℤ) - d.minute_requests.length)
      ((cfg.requests_per_hour : ℤ) - d.hour_requests.length)
      ((cfg.burst_limit : ℤ) - d.burst_requests.length), d)

/-- Run `check_limit` once per timestamp, threading the identity's data and
collecting the outcomes in order. -/
def checkSeq (cfg : RateLimitConfig) (d : UserRateData) :
    List ℚ → List CheckOutcome × UserRateData
  | [] => ([], d)
  | t :: ts =>
    match check_limit cfg d t with
    | none => ([], d)
    | some (res, d') =>
      let (rs, dEnd) := checkSeq cfg d' ts
      (res :: rs, dEnd)

/-! ## backend/analytics/connection_pool.py

The pool is embedded sequentially: each operation is a state transition,
wall-clock time is explicit, and the outside world (liveness probes,
connection creation, per-connection `close()` failures) is an oracle
`PoolEnv`.  `Queue.get(timeout=1.0)` on an empty queue costs one second of
wall-clock time; a non-empty `get`, validation probes and creation are
treated as instantaneous. -/

/-- Python `PoolConfig`: configuration for the connection pool. -/
structure PoolConfig where
  min_size : ℕ := 2
  max_size : ℕ := 10
  acquire_timeout : ℚ := 30
  idle_timeout : ℚ := 300
  validation_interval : ℚ := 60
  deriving Repr, DecidableEq

/-- Python `PooledConnection`: wrapper for one pooled database connection.
`connId` stands for the identity of the underlying DB-API connection. -/
structure PooledConnection where
  connId : ℕ
  created_at : ℚ
  last_used_at : ℚ
  last_validated_at : ℚ
  in_use : Bool := false
  deriving Repr, DecidableEq

/-- State of `DatabricksConnectionPool`: the `_pool` queue of idle
connections (front = next `get`), `_all_connections` as ids, the set of
underlying connections whose `close()` completed, the `_closed` and
`_initialized` flags and a fresh-id counter for created connections. -/
structure PoolState where
  queue : List PooledConnection := []
  members : List ℕ := []
  rawClosedIds : List ℕ := []
  closed : Bool := false
  initialized : Bool := false
  nextId : ℕ := 0
  deriving Repr, DecidableEq

/-- Oracle for the pool's interactions with the outside world: the result
of the `SELECT 1` liveness probe per connection, whether
`databricks_sql.connect` succeeds, and whether each underlying `close()`
succeeds. -/
structure PoolEnv where
  probeOk : ℕ → Bool
  createOk : Bool := true
  closeOk : ℕ → Bool := fun _ => true

/-- Python `DatabricksConnectionPool._create_connection`: open a new connection,
wrap it and append it to `_all_connections`. -/
def create_connection (s : PoolState) (now : ℚ) :
    PooledConnection × PoolState :=
  let c : PooledConnection :=
    { connId := s.nextId
      created_at := now
      last_used_at := now
      last_validated_at := now }
  (c, { s with members := s.members ++ [s.nextId], nextId := s.nextId + 1 })

/-- Python `DatabricksConnectionPool._ensure_initialized`: on first use, create
`min_size` connections (skipping failed creations with a warning) and put
them into the idle queue. -/
def ensure_initialized (cfg : PoolConfig) (env : PoolEnv) (s : PoolState)
    (now : ℚ) : PoolState :=
  if s.initialized then s
  else
    let s := (List.range cfg.min_size).foldl
      (fun s _ =>
        if env.createOk then
          let (c, s) := create_connection s now
          { s with queue := s.queue ++ [c] }
        else s) s
    { s with initialized := true }

/-- Python `DatabricksConnectionPool._validate_connection`: skip the probe when
validated within `validation_interval`; otherwise run `SELECT 1`,
refreshing `last_validated_at` on success. -/
def validate_connection (cfg : PoolConfig) (env : PoolEnv)
    (c : PooledConnection) (now : ℚ) : Bool × PooledConnection :=
  if now - c.last_validated_at < cfg.validation_interval then (true, c)
  else if env.probeOk c.connId then (true, { c with last_validated_at := now })
  else (false, c)

/-- Python `DatabricksConnectionPool._close_connection`: close the underlying
connection, ignoring errors, and drop it from `_all_connections`. -/
def close_connection (env : PoolEnv) (s : PoolState)
    (c : PooledConnection) : PoolState :=
  { s with
    rawClosedIds :=
      if env.closeOk c.connId then s.rawClosedIds ++ [c.connId]
      else s.rawClosedIds
    members := s.members.erase c.connId }

/-- The two `DatabaseConnectionError`s raised by `get_connection`:
"Connection pool is closed" and
"Could not acquire connection within `acquire_timeout`s". -/
inductive AcquireError where
  | poolClosed
  | poolExhausted
  deriving Repr, DecidableEq

/-- The `while (time.time() - start_time) < acquire_timeout` loop of
`get_connection`: pop the idle queue (an empty queue costs the one-second
`get` timeout), validate, discard-and-retry on a failed probe, create a
fresh connection when under `max_size`.  Fuel bounds the number of loop
iterations; `none` means the fuel ran out. -/
def acquireLoop (cfg : PoolConfig) (env : PoolEnv) :
    PoolState → ℚ → ℚ → ℕ →
    Option ((AcquireError ⊕ PooledConnection) × PoolState × ℚ)
  | _, _, _, 0 => none
  | s, start, now, fuel + 1 =>
    if now - start < cfg.acquire_timeout then
      match s.queue with
      | c :: rest =>
        let s' := { s with queue := rest }
        match validate_connection cfg env c now with
        | (true, c') =>
          some (Sum.inr { c' with in_use := true, last_used_at := now }, s', now)
        | (false, c') =>
          acquireLoop cfg env (close_connection env s' c') start now fuel
      | [] =>
        let now' := now + 1
        if s.members.length < cfg.max_size then
          if env.createOk then
            let (c, s') := create_connection s now'
            some (Sum.inr { c with in_use := true }, s', now')
          else acquireLoop cfg env s start now' fuel
        else acquireLoop cfg env s start now' fuel
    else some (Sum.inl .poolExhausted, s, now)

/-- Entry of `DatabricksConnectionPool.get_connection` up to the `yield`:
fail immediately with "Connection pool is closed" when the pool is closed,
otherwise lazily initialize and run the acquisition loop. -/
def acquire (cfg : PoolConfig) (env : PoolEnv) (s : PoolState) (now : ℚ)
    (fuel : ℕ) :
    Option ((AcquireError ⊕ PooledConnection) × PoolState × ℚ) :=
  if s.closed then some (Sum.inl .poolClosed, s, now)
  else acquireLoop cfg env (ensure_initialized cfg env s now) now now fuel

/-- The `finally` block of `get_connection` (the release path): mark the
connection idle, refresh `last_used_at`, and return it to the queue unless
the pool has been closed; a full queue (`put_nowait` raising `Full`)
closes the connection instead. -/
def release (cfg : PoolConfig) (env : PoolEnv) (c : PooledConnection)
    (s : PoolState) (now : ℚ) : PooledConnection × PoolState :=
  let c := { c with in_use := false, last_used_at := now }
  if s.closed = false then
    if s.queue.length < cfg.max_size then
      (c, { s with queue := s.queue ++ [c] })
    else (c, close_connection env s c)
  else (c, s)

/-- Python `DatabricksConnectionPool.close`: mark the pool closed, close every
underlying connection in `_all_connections` ignoring per-connection
errors, and clear the membership list. -/
def closePool (env : PoolEnv) (s : PoolState) : PoolState :=
  { s with
    closed := true
    rawClosedIds := s.rawClosedIds ++ s.members.filter (fun cid => env.closeOk cid)
    members := [] }

/-! ## backend/analytics/schema.py

The live metadata queries run against an external database; their results
(or the exception a failed discovery raises anywhere inside the `try`
block) enter the embedding as `Except`-valued oracles. -/

/-- Python `SchemaCache`: cached schema information with TTL. -/
structure SchemaCache where
  schema_info : String
  tables : List String
  columns : List (String × List String) := []
  cached_at : ℚ
  ttl : ℚ := 300
  deriving Repr, DecidableEq

/-- Python `SchemaCache.is_valid`: `(time.time() - cached_at) < ttl`. -/
def SchemaCache.is_valid (c : SchemaCache) (now : ℚ) : Bool :=
  now - c.cached_at < c.ttl

/-- Mutable state of `SchemaDiscovery`: the optional cached snapshot and
the configured TTL. -/
structure SchemaDiscoveryState where
  cache : Option SchemaCache := none
  cache_ttl : ℚ := 300
  deriving Repr, DecidableEq

/-- The two database backends a `DatabaseConnector` reports via
`get_db_type()`. -/
inductive DbType where
  | sqlite
  | databricks
  deriving Repr, DecidableEq

/-- The connector attributes `_get_fallback_schema` reads: the backend
type and, for Databricks, `connector.catalog` and `connector.schema`. -/
structure ConnectorInfo where
  dbType : DbType
  catalog : String := ""
  schemaName : String := ""
  deriving Repr, DecidableEq

/-- Python `SchemaDiscovery.SQLITE_FALLBACK`: the hardcoded SQLite fallback
schema text. -/
def SQLITE_FALLBACK : String :=
"
DATABASE SCHEMA (SQLite):

Table: products
- id (INTEGER, primary key)
- name (TEXT) - product name like \x27Laptop\x27, \x27Smartphone\x27
- category (TEXT) - category like \x27Electronics\x27, \x27Furniture\x27, \x27Books\x27
- price (REAL) - price in dollars

Table: sales
- id (INTEGER, primary key)
- product_id (INTEGER) - references products.id
- quantity (INTEGER) - number of items sold
- total (REAL) - total sale amount in dollars
- sale_date (DATE) - when the sale happened
- region (TEXT) - \x27North\x27, \x27South\x27, \x27East\x27, or \x27West\x27

RELATIONSHIPS:
- sales.product_id links to products.id
- To get product names with sales, JOIN the tables

EXAMPLE QUERIES:
- Total sales: SELECT SUM(total) FROM sales
- Sales by region: SELECT region, SUM(total) FROM sales GROUP BY region
- Top products: SELECT p.name, SUM(s.total) FROM sales s JOIN products p ON s.product_id = p.id GROUP BY p.name ORDER BY SUM(s.total) DESC
"

/-- Python `SchemaDiscovery.DATABRICKS_FALLBACK_TEMPLATE`: the hardcoded
Databricks fallback schema, with `format`-style placeholders. -/
def DATABRICKS_FALLBACK_TEMPLATE : String :=
"
DATABASE SCHEMA (Databricks: {catalog}.{schema}):

Table: products
- id (BIGINT, primary key)
- name (STRING) - product name like \x27Laptop\x27, \x27Smartphone\x27
- category (STRING) - category like \x27Electronics\x27, \x27Furniture\x27, \x27Books\x27
- price (DOUBLE) - price in dollars

Table: sales
- id (BIGINT, primary key)
- product_id (BIGINT) - references products.id
- quantity (INT) - number of items sold
- total (DOUBLE) - total sale amount in dollars
- sale_date (DATE) - when the sale happened
- region (STRING) - \x27North\x27, \x27South\x27, \x27East\x27, or \x27West\x27

RELATIONSHIPS:
- sales.product_id links to products.id
- To get product names with sales, JOIN the tables

EXAMPLE QUERIES:
- Total sales: SELECT SUM(total) FROM sales
- Sales by region: SELECT region, SUM(total) FROM sales GROUP BY region
- Top products: SELECT p.name, SUM(s.total) FROM sales s JOIN products p ON s.product_id = p.id GROUP BY p.name ORDER BY SUM(s.total) DESC

NOTE: Tables are in catalog {catalog}, schema {schema}
"

/-- Python `SchemaDiscovery._get_fallback_schema`: hardcoded fallback text; for
Databricks, `str.format` substitutes the catalog and schema names. -/
def get_fallback_schema (conn : ConnectorInfo) : String :=
  match conn.dbType with
  | .sqlite => SQLITE_FALLBACK
  | .databricks =>
    ((DATABRICKS_FALLBACK_TEMPLATE.replace "{catalog}" conn.catalog).replace
      "{schema}" conn.schemaName)

/-- The `try`/`except` body of `get_schema_info` once the cached snapshot
is not servable: on success of both `_discover_schema(connector)` and
`connector.get_table_names()`, replace the cache wholesale with a fresh
`SchemaCache` and return the discovered text; on any exception, return the
fallback text and leave the cache untouched. -/
def refresh_schema (s : SchemaDiscoveryState) (conn : ConnectorInfo)
    (discoverResult : Except Unit String)
    (tablesResult : Except Unit (List String)) (now : ℚ) :
    String × SchemaDiscoveryState :=
  match discoverResult with
  | .error _ => (get_fallback_schema conn, s)
  | .ok text =>
    match tablesResult with
    | .error _ => (get_fallback_schema conn, s)
    | .ok tables =>
      (text, { s with
        cache := some { schema_info := text, tables := tables, columns := []
                        cached_at := now, ttl := s.cache_ttl } })

/-- Python `SchemaDiscovery.get_schema_info`: serve the cached text when present,
valid and refresh is not forced; otherwise attempt live discovery with
fallback on failure. -/
def get_schema_info (s : SchemaDiscoveryState) (conn : ConnectorInfo)
    (discoverResult : Except Unit String)
    (tablesResult : Except Unit (List String)) (force_refresh : Bool)
    (now : ℚ) : String × SchemaDiscoveryState :=
  match s.cache with
  | some c =>
    if !force_refresh && c.is_valid now then (c.schema_info, s)
    else refresh_schema s conn discoverResult tablesResult now
  | none => refresh_schema s conn discoverResult tablesResult now

/-! ## Derived notions used in theorem statements -/

/-- Pointwise order on the three monotone counters of `CacheStats`. -/
def StatsLe (a b : CacheStats) : Prop :=
  a.hits ≤ b.hits ∧ a.misses ≤ b.misses ∧ a.evictions ≤ b.evictions

/-- One sequence of `ResponseCache.set` calls, each with its key, value,
optional TTL and timestamp; a call whose `ValueError` escapes (possible
only when `max_entries = 0`) leaves the state the exception left behind
(the throttled cleanup has already run). -/
def applySets {α : Type} (s : ResponseCache α) :
    List (ℕ × α × Option ℚ × ℚ) → ResponseCache α
  | [] => s
  | (k, v, ttl, now) :: rest =>
    match s.set k v ttl now with
    | some r => applySets r.2 rest
    | none => applySets (s.cleanup_expired now) rest

/-! ## Helper lemmas -/

theorem statsLe_refl (a : CacheStats) : StatsLe a a :=
  ⟨le_rfl, le_rfl, le_rfl⟩

theorem statsLe_trans {a b c : CacheStats} (h1 : StatsLe a b)
    (h2 : StatsLe b c) : StatsLe a c :=
  ⟨h1.1.trans h2.1, h1.2.1.trans h2.2.1, h1.2.2.trans h2.2.2⟩

theorem statsLe_cleanup {α : Type} (s : ResponseCache α) (now : ℚ) :
    StatsLe s.stats ((s.cleanup_expired now).stats) := by
  unfold ResponseCache.cleanup_expired
  split
  · exact statsLe_refl _
  · exact ⟨le_rfl, le_rfl, Nat.le_add_right _ _⟩

theorem statsLe_evict {α : Type} {s s' : ResponseCache α}
    (h : s.evict_lru = some s') : StatsLe s.stats s'.stats := by
  unfold ResponseCache.evict_lru at h
  split at h
  · cases h
    exact statsLe_refl _
  · split at h
    · cases h
    · cases h
      exact ⟨le_rfl, le_rfl, Nat.le_add_right _ _⟩

theorem stats_mono_get {α : Type} (s : ResponseCache α) (k : ℕ) (now : ℚ) :
    StatsLe s.stats ((s.get k now).2.stats) := by
  refine statsLe_trans (statsLe_cleanup s now) ?_
  simp only [ResponseCache.get]
  cases hfind : dictGet (s.cleanup_expired now).cache k with
  | none =>
    simp only [hfind]
    exact ⟨le_rfl, Nat.le_succ _, le_rfl⟩
  | some e =>
    simp only [hfind]
    cases hexp : e.is_expired now
    · simp only [hexp, Bool.false_eq_true, if_false]
      exact ⟨Nat.le_succ _, le_rfl, le_rfl⟩
    · simp only [hexp, if_true]
      exact ⟨le_rfl, Nat.le_succ _, Nat.le_succ _⟩

theorem stats_mono_set {α : Type} (s : ResponseCache α) (k : ℕ) (v : α)
    (ttl : Option ℚ) (now : ℚ) (r : ℕ × ResponseCache α)
    (h : s.set k v ttl now = some r) : StatsLe s.stats r.2.stats := by
  refine statsLe_trans (statsLe_cleanup s now) ?_
  simp only [ResponseCache.set] at h
  cases hev : (s.cleanup_expired now).evict_lru with
  | none => rw [hev] at h; cases h
  | some s' =>
    rw [hev] at h
    have hle := statsLe_evict hev
    cases h
    exact ⟨hle.1, hle.2.1, hle.2.2⟩

theorem stats_mono_invalidate {α : Type} (s : ResponseCache α)
    (k : Option ℕ) : StatsLe s.stats ((s.invalidate k).2.stats) := by
  cases k with
  | none => exact ⟨le_rfl, le_rfl, Nat.le_add_right _ _⟩
  | some key =>
    simp only [ResponseCache.invalidate]
    cases hmem : (dictGet s.cache key).isSome
    · simp only [hmem, Bool.false_eq_true, if_false]
      exact statsLe_refl _
    · simp only [hmem, if_true]
      exact ⟨le_rfl, le_rfl, Nat.le_add_right _ _⟩

/-! ## Claims -/

/-- C10: when `hits + misses = 0` the `hit_rate` property still returns
`0.0` instead of dividing by zero, so cache statistics are total in every
reachable state, including a freshly constructed `ResponseCache`. -/
theorem hit_rate_zero_guard :
    (∀ st : CacheStats, st.hits + st.misses = 0 → st.hit_rate = 0) ∧
    (∀ (α : Type) (default_ttl : ℚ) (max_entries : ℕ)
       (cleanup_interval now : ℚ),
      (ResponseCache.init α default_ttl max_entries cleanup_interval
        now).stats.hit_rate = 0) := by
  constructor
  · intro st h
    unfold CacheStats.hit_rate
    rw [if_neg]
    omega
  · intro α default_ttl max_entries cleanup_interval now
    simp [ResponseCache.init, CacheStats.hit_rate]

/-- C10 witness: the guard evaluated on the all-zero statistics record. -/
theorem hit_rate_zero_guard_witness :
    ({ hits := 0, misses := 0 } : CacheStats).hit_rate = 0 :=
  hit_rate_zero_guard.1 { hits := 0, misses := 0 } rfl

/-- C9 counterexample: the claim states `hit_rate = hits/(hits+misses)`,
but with one hit and one miss the code reports `50` (a percentage), not
`1/2`. -/
theorem hit_rate_not_plain_ratio :
    ({ hits := 1, misses := 1 } : CacheStats).hit_rate = 50 ∧
    ({ hits := 1, misses := 1 } : CacheStats).hit_rate ≠
      (1 : ℚ) / (1 + 1) := by
  constructor <;> norm_num [CacheStats.hit_rate]

/-- C9 (amended): the counters `hits`, `misses`, `evictions` are
monotonically non-decreasing across every `get`, `set` and `invalidate`,
and the reported `hit_rate` equals `hits/(hits+misses) * 100` (a
percentage) whenever `hits + misses > 0`. -/
theorem cache_stats_monotone_hit_rate :
    (∀ (α : Type) (s : ResponseCache α) (k : ℕ) (now : ℚ),
      StatsLe s.stats ((s.get k now).2.stats)) ∧
    (∀ (α : Type) (s : ResponseCache α) (k : ℕ) (v : α) (ttl : Option ℚ)
       (now : ℚ) (r : ℕ × ResponseCache α),
      s.set k v ttl now = some r → StatsLe s.stats r.2.stats) ∧
    (∀ (α : Type) (s : ResponseCache α) (k : Option ℕ),
      StatsLe s.stats ((s.invalidate k).2.stats)) ∧
    (∀ st : CacheStats, 0 < st.hits + st.misses →
      st.hit_rate = (st.hits : ℚ) / ((st.hits : ℚ) + (st.misses : ℚ)) * 100) := by
  refine ⟨fun α s k now => stats_mono_get s k now,
    fun α s k v ttl now r h => stats_mono_set s k v ttl now r h,
    fun α s k => stats_mono_invalidate s k, fun st h => ?_⟩
  unfold CacheStats.hit_rate
  rw [if_pos h]

/-- C9 witness: the amended claim applied to a concrete `set` call and a
concrete statistics record. -/
theorem cache_stats_monotone_hit_rate_witness :
    (∀ r : ℕ × ResponseCache ℕ,
      (ResponseCache.init ℕ 300 1000 60 0).set 1 7 none 0 = some r →
      StatsLe (ResponseCache.init ℕ 300 1000 60 0).stats r.2.stats) ∧
    ({ hits := 3, misses := 1 } : CacheStats).hit_rate =
      (3 : ℚ) / ((3 : ℚ) + (1 : ℚ)) * 100 :=
  ⟨fun r h => cache_stats_monotone_hit_rate.2.1 ℕ _ 1 7 none 0 r h,
   cache_stats_monotone_hit_rate.2.2.2 { hits := 3, misses := 1 }
     (by norm_num)⟩

/-- C5: once the pool is closed, every `acquire` fails immediately (same
instant, any fuel/timeout) with the pool-closed error and an unchanged
state; and `close()` marks the pool terminal and clears the membership
list whatever the per-connection close results are, recording a completed
underlying close for every member whose `close()` succeeded. -/
theorem pool_closed_acquire_fails :
    (∀ (cfg : PoolConfig) (env : PoolEnv) (s : PoolState) (now : ℚ)
       (fuel : ℕ), s.closed = true →
      acquire cfg env s now fuel = some (Sum.inl .poolClosed, s, now)) ∧
    (∀ (env : PoolEnv) (s : PoolState),
      (closePool env s).closed = true ∧ (closePool env s).members = [] ∧
      ∀ cid ∈ s.members, env.closeOk cid = true →
        cid ∈ (closePool env s).rawClosedIds) := by
  constructor
  · intro cfg env s now fuel h
    unfold acquire
    rw [if_pos h]
  · intro env s
    refine ⟨rfl, rfl, ?_⟩
    intro cid hmem hok
    simp only [closePool, List.mem_append, List.mem_filter]
    exact Or.inr ⟨hmem, hok⟩

/-- C5 witness: a concrete closed pool rejects a concrete `acquire`. -/
theorem pool_closed_acquire_fails_witness :
    acquire {} { probeOk := fun _ => true }
      { closed := true, members := [0] } 5 9 =
      some (Sum.inl .poolClosed, { closed := true, members := [0] }, 5) :=
  pool_closed_acquire_fails.1 {} { probeOk := fun _ => true }
    { closed := true, members := [0] } 5 9 rfl

/-- C8: whenever the cached snapshot is not servable (refresh forced, or
no valid cache), a discovery failure — an exception in
`_discover_schema` or in `get_table_names` — makes `get_schema_info`
return the hardcoded fallback text with the cache left untouched (the
fallback is never cached, nothing propagates), while a successful
discovery replaces the cached entry wholesale with a fresh `SchemaCache`. -/
theorem schema_fallback_on_failure :
    (∀ (s : SchemaDiscoveryState) (conn : ConnectorInfo)
       (tablesResult : Except Unit (List String)) (force : Bool) (now : ℚ),
      (force = true ∨ ∀ c, s.cache = some c → c.is_valid now = false) →
      get_schema_info s conn (.error ()) tablesResult force now =
        (get_fallback_schema conn, s)) ∧
    (∀ (s : SchemaDiscoveryState) (conn : ConnectorInfo) (text : String)
       (force : Bool) (now : ℚ),
      (force = true ∨ ∀ c, s.cache = some c → c.is_valid now = false) →
      get_schema_info s conn (.ok text) (.error ()) force now =
        (get_fallback_schema conn, s)) ∧
    (∀ (s : SchemaDiscoveryState) (conn : ConnectorInfo) (text : String)
       (tables : List String) (force : Bool) (now : ℚ),
      (force = true ∨ ∀ c, s.cache = some c → c.is_valid now = false) →
      get_schema_info s conn (.ok text) (.ok tables) force now =
        (text, { s with cache := some { schema_info := text, tables := tables, columns := [], cached_at := now, ttl := s.cache_ttl } })) := by
  have gate : ∀ (s : SchemaDiscoveryState) (conn : ConnectorInfo)
      (dr : Except Unit String) (tr : Except Unit (List String))
      (force : Bool) (now : ℚ),
      (force = true ∨ ∀ c, s.cache = some c → c.is_valid now = false) →
      get_schema_info s conn dr tr force now =
        refresh_schema s conn dr tr now := by
    intro s conn dr tr force now h
    unfold get_schema_info
    cases hc : s.cache with
    | none => rfl
    | some c =>
      have hcond : (!force && c.is_valid now) = false := by
        rcases h with h | h
        · simp [h]
        · simp [h c hc]
      simp [hcond]
  refine ⟨fun s conn tr force now h => ?_, fun s conn text force now h => ?_,
    fun s conn text tables force now h => ?_⟩
  · rw [gate s conn _ tr force now h]; rfl
  · rw [gate s conn _ _ force now h]; rfl
  · rw [gate s conn _ _ force now h]; rfl

/-- C8 witness: a concrete failed discovery on an empty cache returns the
SQLite fallback and leaves the state unchanged. -/
theorem schema_fallback_on_failure_witness :
    get_schema_info { cache := none } { dbType := .sqlite } (.error ())
      (.error ()) false 0 = (SQLITE_FALLBACK, { cache := none }) :=
  schema_fallback_on_failure.1 { cache := none } { dbType := .sqlite }
    (.error ()) false 0 (Or.inr fun c h => by cases h)

/-- C3: `check_limit` first prunes the three timestamp lists to their
horizons, then tests burst, then minute, then hour; the first violated
tier fixes `limit_type` and `retry_after` = window length minus the age of
that window's oldest (front) timestamp.  In particular with
`burst_limit = 5`, five allowed requests within one second make the sixth
be rejected with `limit_type = "burst"`. -/
theorem rate_limiter_tier_precedence :
    (∀ (cfg : RateLimitConfig) (d : UserRateData) (now t0 : ℚ),
      (cleanup_old_requests d now).burst_requests.length ≥ cfg.burst_limit →
      (cleanup_old_requests d now).burst_requests.head? = some t0 →
      check_limit cfg d now =
        some (.rejected "burst" (10 - (now - t0)),
          cleanup_old_requests d now)) ∧
    (∀ (cfg : RateLimitConfig) (d : UserRateData) (now t0 : ℚ),
      (cleanup_old_requests d now).burst_requests.length < cfg.burst_limit →
      (cleanup_old_requests d now).minute_requests.length ≥
        cfg.requests_per_minute →
      (cleanup_old_requests d now).minute_requests.head? = some t0 →
      check_limit cfg d now =
        some (.rejected "minute" (60 - (now - t0)),
          cleanup_old_requests d now)) ∧
    (∀ (cfg : RateLimitConfig) (d : UserRateData) (now t0 : ℚ),
      (cleanup_old_requests d now).burst_requests.length < cfg.burst_limit →
      (cleanup_old_requests d now).minute_requests.length <
        cfg.requests_per_minute →
      (cleanup_old_requests d now).hour_requests.length ≥
        cfg.requests_per_hour →
      (cleanup_old_requests d now).hour_requests.head? = some t0 →
      check_limit cfg d now =
        some (.rejected "hour" (3600 - (now - t0)),
          cleanup_old_requests d now)) ∧
    (checkSeq {} {} [0, 1/5, 2/5, 3/5, 4/5, 1]).1 =
      [.allowed 9 99 4, .allowed 8 98 3, .allowed 7 97 2,
       .allowed 6 96 1, .allowed 5 95 0, .rejected "burst" 9] := by
  refine ⟨fun cfg d now t0 hblen hbhead => ?_,
    fun cfg d now t0 hblt hmlen hmhead => ?_,
    fun cfg d now t0 hblt hmlt hhlen hhhead => ?_, ?_⟩
  · simp only [check_limit]
    rw [if_pos hblen, hbhead]
  · simp only [check_limit]
    rw [if_neg (not_le.mpr hblt), if_pos hmlen, hmhead]
  · simp only [check_limit]
    rw [if_neg (not_le.mpr hblt), if_neg (not_le.mpr hmlt), if_pos hhlen,
      hhhead]
  · norm_num [checkSeq, check_limit, cleanup_old_requests, List.filter]

/-- C3 witness: the burst tier applied to one identity whose pruned burst
window already holds `burst_limit` timestamps. -/
theorem rate_limiter_tier_precedence_witness :
    check_limit { burst_limit := 1 }
      { minute_requests := [0], hour_requests := [0],
        burst_requests := [0] } 1 =
      some (.rejected "burst" (10 - (1 - 0)),
        cleanup_old_requests
          { minute_requests := [0], hour_requests := [0],
            burst_requests := [0] } 1) :=
  rate_limiter_tier_precedence.1 { burst_limit := 1 }
    { minute_requests := [0], hour_requests := [0], burst_requests := [0] }
    1 0 (by norm_num [cleanup_old_requests, List.filter])
    (by norm_num [cleanup_old_requests, List.filter])

/-- C4: `check_limit` appends the current timestamp to all three window
lists exactly when the request is allowed (carrying per-tier remaining
capacities computed after the append), and a rejected request leaves the
pruned lists with no timestamp added. -/
theorem rate_limiter_spend_on_allow :
    ∀ (cfg : RateLimitConfig) (d : UserRateData) (now : ℚ)
      (res : CheckOutcome) (d' : UserRateData),
      check_limit cfg d now = some (res, d') →
      (∀ rm rh rb, res = .allowed rm rh rb →
        d'.minute_requests =
          (cleanup_old_requests d now).minute_requests ++ [now] ∧
        d'.hour_requests =
          (cleanup_old_requests d now).hour_requests ++ [now] ∧
        d'.burst_requests =
          (cleanup_old_requests d now).burst_requests ++ [now] ∧
        rm = (cfg.requests_per_minute : ℤ) - d'.minute_requests.length ∧
        rh = (cfg.requests_per_hour : ℤ) - d'.hour_requests.length ∧
        rb = (cfg.burst_limit : ℤ) - d'.burst_requests.length) ∧
      (∀ lt ra, res = .rejected lt ra →
        d' = cleanup_old_requests d now) := by
  intro cfg d now res d' h
  simp only [check_limit] at h
  split at h
  · cases hh : (cleanup_old_requests d now).burst_requests.head? with
    | none => rw [hh] at h; cases h
    | some t0 =>
      rw [hh] at h
      cases h
      constructor
      · intro rm rh rb heq
        nomatch heq
      · intro lt ra heq
        rfl
  · split at h
    · cases hh : (cleanup_old_requests d now).minute_requests.head? with
      | none => rw [hh] at h; cases h
      | some t0 =>
        rw [hh] at h
        cases h
        constructor
        · intro rm rh rb heq
          nomatch heq
        · intro lt ra heq
          rfl
    · split at h
      · cases hh : (cleanup_old_requests d now).hour_requests.head? with
        | none => rw [hh] at h; cases h
        | some t0 =>
          rw [hh] at h
          cases h
          constructor
          · intro rm rh rb heq
            nomatch heq
          · intro lt ra heq
            rfl
      · cases h
        refine ⟨fun rm rh rb heq => ?_, fun lt ra heq => nomatch heq⟩
        cases heq
        exact ⟨rfl, rfl, rfl, rfl, rfl, rfl⟩

/-- C4 witness: a concrete allowed request spends one slot in each window
and reports the remaining capacities. -/
theorem rate_limiter_spend_on_allow_witness :
    ({ minute_requests := [0], hour_requests := [0],
       burst_requests := [0] } : UserRateData).minute_requests =
      (cleanup_old_requests {} 0).minute_requests ++ [0] ∧
    ({ minute_requests := [0], hour_requests := [0],
       burst_requests := [0] } : UserRateData).hour_requests =
      (cleanup_old_requests {} 0).hour_requests ++ [0] ∧
    ({ minute_requests := [0], hour_requests := [0],
       burst_requests := [0] } : UserRateData).burst_requests =
      (cleanup_old_requests {} 0).burst_requests ++ [0] ∧
    (9 : ℤ) = (10 : ℤ) -
      (({ minute_requests := [0], hour_requests := [0],
          burst_requests := [0] } : UserRateData).minute_requests.length : ℤ) ∧
    (99 : ℤ) = (100 : ℤ) -
      (({ minute_requests := [0], hour_requests := [0],
          burst_requests := [0] } : UserRateData).hour_requests.length : ℤ) ∧
    (4 : ℤ) = (5 : ℤ) -
      (({ minute_requests := [0], hour_requests := [0],
          burst_requests := [0] } : UserRateData).burst_requests.length : ℤ) :=
  (rate_limiter_spend_on_allow {} {} 0 (.allowed 9 99 4)
    { minute_requests := [0], hour_requests := [0], burst_requests := [0] }
    (by norm_num [check_limit, cleanup_old_requests, List.filter])).1
    9 99 4 rfl

/-- C6: releasing a checked-out connection marks it not in use and appends
it to the idle queue, leaving the membership untouched (open pool with a
non-full queue); and in the acquire–close–release trace on a closed pool
the connection ends up destroyed — underlying close completed, out of the
membership list, not in the idle queue — instead of being returned. -/
theorem pool_release_behavior :
    (∀ (cfg : PoolConfig) (env : PoolEnv) (c : PooledConnection)
       (s : PoolState) (now : ℚ),
      s.closed = false → s.queue.length < cfg.max_size →
      (release cfg env c s now).1.in_use = false ∧
      (release cfg env c s now).2.queue =
        s.queue ++ [(release cfg env c s now).1] ∧
      (release cfg env c s now).2.members = s.members) ∧
    (acquire {} { probeOk := fun _ => true }
        { queue := [{ connId := 0, created_at := 0, last_used_at := 0,
                      last_validated_at := 0 }],
          members := [0], initialized := true, nextId := 1 } 0 1 =
      some (Sum.inr { connId := 0, created_at := 0, last_used_at := 0,
                      last_validated_at := 0, in_use := true },
        { queue := [], members := [0], initialized := true, nextId := 1 },
        0)) ∧
    (closePool { probeOk := fun _ => true }
        { queue := [], members := [0], initialized := true, nextId := 1 } =
      { queue := [], members := [], rawClosedIds := [0], closed := true,
        initialized := true, nextId := 1 }) ∧
    (release {} { probeOk := fun _ => true }
        { connId := 0, created_at := 0, last_used_at := 0,
          last_validated_at := 0, in_use := true }
        { queue := [], members := [], rawClosedIds := [0], closed := true,
          initialized := true, nextId := 1 } 1 =
      ({ connId := 0, created_at := 0, last_used_at := 1,
         last_validated_at := 0, in_use := false },
       { queue := [], members := [], rawClosedIds := [0], closed := true,
         initialized := true, nextId := 1 })) := by
  refine ⟨fun cfg env c s now hclosed hlen => ?_, ?_, ?_, ?_⟩
  · unfold release
    rw [hclosed]
    simp only [if_pos rfl, if_pos hlen]
    exact ⟨rfl, rfl, rfl⟩
  · norm_num [acquire, acquireLoop, ensure_initialized,
      validate_connection, create_connection]
  · norm_num [closePool, List.filter]
  · norm_num [release, close_connection]

/-- C6 witness: a concrete release on an open pool returns the connection
to the idle queue. -/
theorem pool_release_behavior_witness :
    ((release {} { probeOk := fun _ => true }
        { connId := 3, created_at := 0, last_used_at := 0,
          last_validated_at := 0, in_use := true }
        { queue := [], members := [3], initialized := true, nextId := 4 }
        2).1.in_use = false) ∧
    ((release {} { probeOk := fun _ => true }
        { connId := 3, created_at := 0, last_used_at := 0,
          last_validated_at := 0, in_use := true }
        { queue := [], members := [3], initialized := true, nextId := 4 }
        2).2.members = [3]) := by
  have h := pool_release_behavior.1 {} { probeOk := fun _ => true }
    { connId := 3, created_at := 0, last_used_at := 0,
      last_validated_at := 0, in_use := true }
    { queue := [], members := [3], initialized := true, nextId := 4 } 2
    rfl (by norm_num)
  exact ⟨h.1, h.2.2⟩

theorem acquireLoop_exhausted (cfg : PoolConfig) (env : PoolEnv)
    (s : PoolState) (start : ℚ) (hq : s.queue = [])
    (hm : cfg.max_size ≤ s.members.length) :
    ∀ (fuel : ℕ) (now : ℚ),
      now - start < cfg.acquire_timeout + 1 →
      cfg.acquire_timeout - (now - start) + 1 ≤ (fuel : ℚ) →
      ∃ stop : ℚ,
        acquireLoop cfg env s start now fuel =
          some (Sum.inl .poolExhausted, s, stop) ∧
        cfg.acquire_timeout ≤ stop - start ∧
        stop - start < cfg.acquire_timeout + 1 := by
  intro fuel
  induction fuel with
  | zero =>
    intro now h1 h2
    exfalso
    push_cast at h2
    linarith
  | succ n ih =>
    intro now h1 h2
    by_cases hcond : now - start < cfg.acquire_timeout
    · have hrec := ih (now + 1) (by linarith) (by push_cast at h2 ⊢; linarith)
      obtain ⟨stop, heq, hlo, hhi⟩ := hrec
      refine ⟨stop, ?_, hlo, hhi⟩
      rw [acquireLoop, if_pos hcond, hq]
      simp only
      rw [if_neg (not_lt.mpr hm)]
      exact heq
    · refine ⟨now, ?_, not_lt.mp hcond, h1⟩
      rw [acquireLoop, if_neg hcond]

/-- C7: against an exhausted pool (all `max_size` members checked out,
empty idle queue, nothing released), `acquire` returns the pool-exhausted
error — no connection — at a time between `acquire_timeout` and
`acquire_timeout + 1` (one poll interval) after the call, with the pool
state unchanged; the liveness probe is skipped entirely for a connection
validated within `validation_interval`; and a failed probe makes the loop
discard that connection and retry, handing out the next good connection
instead of surfacing an error. -/
theorem pool_exhausted_timeout :
    (∀ (cfg : PoolConfig) (env : PoolEnv) (s : PoolState) (now : ℚ)
       (fuel : ℕ),
      s.closed = false → s.initialized = true → s.queue = [] →
      s.members.length = cfg.max_size → 0 ≤ cfg.acquire_timeout →
      cfg.acquire_timeout + 1 ≤ (fuel : ℚ) →
      ∃ stop : ℚ,
        acquire cfg env s now fuel =
          some (Sum.inl .poolExhausted, s, stop) ∧
        cfg.acquire_timeout ≤ stop - now ∧
        stop - now < cfg.acquire_timeout + 1) ∧
    (∀ (cfg : PoolConfig) (env : PoolEnv) (c : PooledConnection) (now : ℚ),
      now - c.last_validated_at < cfg.validation_interval →
      validate_connection cfg env c now = (true, c)) ∧
    (acquire {} { probeOk := fun cid => cid == 1 }
        { queue := [{ connId := 0, created_at := -100, last_used_at := -100,
                      last_validated_at := -100 },
                    { connId := 1, created_at := 0, last_used_at := 0,
                      last_validated_at := 0 }],
          members := [0, 1], initialized := true, nextId := 2 } 0 2 =
      some (Sum.inr { connId := 1, created_at := 0, last_used_at := 0,
                      last_validated_at := 0, in_use := true },
        { queue := [], members := [1], rawClosedIds := [0],
          initialized := true, nextId := 2 }, 0)) := by
  refine ⟨fun cfg env s now fuel hclosed hinit hq hm htime hfuel => ?_,
    fun cfg env c now h => ?_, ?_⟩
  · have hens : ensure_initialized cfg env s now = s := by
      unfold ensure_initialized
      rw [hinit]
      rfl
    obtain ⟨stop, heq, hlo, hhi⟩ := acquireLoop_exhausted cfg env s now hq
      (le_of_eq hm.symm) fuel now (by rw [sub_self]; linarith)
      (by rw [sub_self, sub_zero]; exact hfuel)
    refine ⟨stop, ?_, hlo, hhi⟩
    unfold acquire
    rw [hclosed]
    simp only [Bool.false_eq_true, if_false]
    rw [hens, heq]
  · unfold validate_connection
    rw [if_pos h]
  · norm_num [acquire, acquireLoop, ensure_initialized,
      validate_connection, close_connection, List.erase]

/-- C7 witness: a two-second timeout on a one-connection pool whose only
member is checked out, and a skipped probe for a freshly validated
connection. -/
theorem pool_exhausted_timeout_witness :
    (∃ stop : ℚ,
      acquire { max_size := 1, acquire_timeout := 2 }
        { probeOk := fun _ => true }
        { queue := [], members := [5], initialized := true, nextId := 6 }
        0 3 =
        some (Sum.inl .poolExhausted,
          { queue := [], members := [5], initialized := true, nextId := 6 },
          stop) ∧
      (2 : ℚ) ≤ stop - 0 ∧ stop - 0 < (2 : ℚ) + 1) ∧
    validate_connection {} { probeOk := fun _ => false }
      { connId := 0, created_at := 0, last_used_at := 0,
        last_validated_at := 0 } 1 =
      (true, { connId := 0, created_at := 0, last_used_at := 0,
               last_validated_at := 0 }) :=
  ⟨pool_exhausted_timeout.1 { max_size := 1, acquire_timeout := 2 }
      { probeOk := fun _ => true }
      { queue := [], members := [5], initialized := true, nextId := 6 }
      0 3 rfl rfl rfl rfl (by norm_num) (by norm_num),
   pool_exhausted_timeout.2.1 {} { probeOk := fun _ => false }
      { connId := 0, created_at := 0, last_used_at := 0,
        last_validated_at := 0 } 1 (by norm_num)⟩

/-! ## Association-list lemmas for the cache dict -/

theorem beq_nat_refl (k : ℕ) : (k == k) = true := beq_self_eq_true k

theorem dictGet_cons {α : Type} (k' : ℕ) (e' : CacheEntry α)
    (l : CacheDict α) (k : ℕ) :
    dictGet ((k', e') :: l) k =
      if k' == k then some e' else dictGet l k := by
  by_cases h : (k' == k) = true
  · rw [if_pos h]
    simp only [dictGet]
    rw [List.find?_cons_of_pos _ (by exact h)]
    rfl
  · rw [if_neg h]
    simp only [dictGet]
    rw [List.find?_cons_of_neg _ (by exact h)]

theorem dictGet_dictSet_self {α : Type} (c : CacheDict α) (k : ℕ)
    (e : CacheEntry α) : dictGet (dictSet c k e) k = some e := by
  induction c with
  | nil =>
    show dictGet [(k, e)] k = some e
    rw [dictGet_cons, if_pos (beq_nat_refl k)]
  | cons p rest ih =>
    obtain ⟨k', e'⟩ := p
    by_cases h : (k' == k) = true
    · simp only [dictSet, if_pos h]
      rw [dictGet_cons, if_pos (beq_nat_refl k)]
    · simp only [dictSet, if_neg h]
      rw [dictGet_cons, if_neg h]
      exact ih

theorem dictGet_eq_none_of_not_mem {α : Type} {c : CacheDict α} {k : ℕ}
    (h : k ∉ c.map Prod.fst) : dictGet c k = none := by
  have hf : c.find? (fun p => p.1 == k) = none := by
    rw [List.find?_eq_none]
    intro p hp
    simp only [beq_iff_eq]
    intro hk
    exact h (List.mem_map.mpr ⟨p, hp, hk⟩)
  simp [dictGet, hf]

theorem keys_dictSet_sub {α : Type} (c : CacheDict α) (k : ℕ)
    (e : CacheEntry α) :
    ∀ a ∈ (dictSet c k e).map Prod.fst, a = k ∨ a ∈ c.map Prod.fst := by
  induction c with
  | nil => simp [dictSet]
  | cons p rest ih =>
    obtain ⟨k', e'⟩ := p
    intro a ha
    by_cases h : (k' == k) = true
    · simp only [dictSet, if_pos h, List.map_cons, List.mem_cons] at ha
      rcases ha with rfl | ha
      · exact Or.inl rfl
      · refine Or.inr ?_
        rw [List.map_cons]
        exact List.mem_cons_of_mem _ ha
    · simp only [dictSet, if_neg h, List.map_cons, List.mem_cons] at ha
      rcases ha with rfl | ha
      · refine Or.inr ?_
        rw [List.map_cons]
        exact List.mem_cons_self _ _
      · rcases ih a ha with h1 | h1
        · exact Or.inl h1
        · refine Or.inr ?_
          rw [List.map_cons]
          exact List.mem_cons_of_mem _ h1

theorem nodup_keys_dictSet {α : Type} (c : CacheDict α) (k : ℕ)
    (e : CacheEntry α) (h : (c.map Prod.fst).Nodup) :
    ((dictSet c k e).map Prod.fst).Nodup := by
  induction c with
  | nil => simp [dictSet]
  | cons p rest ih =>
    obtain ⟨k', e'⟩ := p
    simp only [List.map_cons, List.nodup_cons] at h
    by_cases hk : (k' == k) = true
    · have hkk : k' = k := beq_iff_eq.mp hk
      simp only [dictSet, if_pos hk, List.map_cons, List.nodup_cons]
      subst hkk
      exact ⟨h.1, h.2⟩
    · have hkk : k' ≠ k := fun hh => hk (by rw [hh]; exact beq_nat_refl k)
      simp only [dictSet, if_neg hk, List.map_cons, List.nodup_cons]
      refine ⟨?_, ih h.2⟩
      intro hmem
      rcases keys_dictSet_sub rest k e k' hmem with h1 | h1
      · exact hkk h1
      · exact h.1 h1

theorem mem_dictSet_key_eq {α : Type} (c : CacheDict α) (k : ℕ)
    (e : CacheEntry α) (hnd : (c.map Prod.fst).Nodup) :
    ∀ p ∈ dictSet c k e, p.1 = k → p = (k, e) := by
  induction c with
  | nil =>
    intro p hp _
    simpa [dictSet] using hp
  | cons q rest ih =>
    obtain ⟨k', e'⟩ := q
    simp only [List.map_cons, List.nodup_cons] at hnd
    by_cases hk : (k' == k) = true
    · have hkk : k' = k := beq_iff_eq.mp hk
      simp only [dictSet, if_pos hk]
      intro p hp hpk
      rcases List.mem_cons.mp hp with hp | hp
      · exact hp
      · exfalso
        apply hnd.1
        rw [hkk]
        exact List.mem_map.mpr ⟨p, hp, hpk⟩
    · have hkk : k' ≠ k := fun hh => hk (by rw [hh]; exact beq_nat_refl k)
      simp only [dictSet, if_neg hk]
      intro p hp hpk
      rcases List.mem_cons.mp hp with hp | hp
      · exfalso
        apply hkk
        rw [hp] at hpk
        exact hpk
      · exact ih hnd.2 p hp hpk

theorem dictGet_filter_dictSet_pos {α : Type}
    (q : ℕ × CacheEntry α → Bool) (c : CacheDict α) (k : ℕ)
    (e : CacheEntry α) (hq : q (k, e) = true) :
    dictGet ((dictSet c k e).filter q) k = some e := by
  induction c with
  | nil =>
    show dictGet (List.filter q [(k, e)]) k = some e
    rw [List.filter_cons_of_pos hq]
    rw [dictGet_cons, if_pos (beq_nat_refl k)]
  | cons p rest ih =>
    obtain ⟨k', e'⟩ := p
    by_cases h : (k' == k) = true
    · simp only [dictSet, if_pos h]
      rw [List.filter_cons_of_pos hq]
      rw [dictGet_cons, if_pos (beq_nat_refl k)]
    · simp only [dictSet, if_neg h]
      cases hq' : q (k', e') with
      | true =>
        rw [List.filter_cons_of_pos hq', dictGet_cons, if_neg h]
        exact ih
      | false =>
        rw [List.filter_cons_of_neg (by simp [hq'])]
        exact ih

theorem dictGet_filter_dictSet_neg {α : Type}
    (q : ℕ × CacheEntry α → Bool) (c : CacheDict α) (k : ℕ)
    (e : CacheEntry α) (hnd : (c.map Prod.fst).Nodup)
    (hq : q (k, e) = false) :
    dictGet ((dictSet c k e).filter q) k = none := by
  have hf : ((dictSet c k e).filter q).find? (fun p => p.1 == k) = none := by
    rw [List.find?_eq_none]
    intro p hp
    simp only [beq_iff_eq]
    intro hpk
    have hmem := List.mem_filter.mp hp
    have hpe : p = (k, e) := mem_dictSet_key_eq c k e hnd p hmem.1 hpk
    have h2 := hmem.2
    rw [hpe, hq] at h2
    exact Bool.false_ne_true h2
  simp [dictGet, hf]

theorem dictGet_dictDel_self {α : Type} (c : CacheDict α) (k : ℕ)
    (hnd : (c.map Prod.fst).Nodup) : dictGet (dictDel c k) k = none := by
  induction c with
  | nil => simp [dictDel, dictGet]
  | cons p rest ih =>
    obtain ⟨k', e'⟩ := p
    simp only [List.map_cons, List.nodup_cons] at hnd
    by_cases h : (k' == k) = true
    · have hkk : k' = k := beq_iff_eq.mp h
      simp only [dictDel, List.eraseP_cons, h, cond_true]
      apply dictGet_eq_none_of_not_mem
      rw [← hkk]
      exact hnd.1
    · have hf : ((k', e').1 == k) = false := by simpa using h
      simp only [dictDel, List.eraseP_cons, hf, cond_false]
      rw [dictGet_cons, if_neg h]
      exact ih hnd.2

theorem length_dictSet_le {α : Type} (c : CacheDict α) (k : ℕ)
    (e : CacheEntry α) : (dictSet c k e).length ≤ c.length + 1 := by
  induction c with
  | nil => simp [dictSet]
  | cons p rest ih =>
    obtain ⟨k', e'⟩ := p
    by_cases h : (k' == k) = true
    · simp [dictSet, h]
    · simp only [dictSet, if_neg h, List.length_cons]
      omega

theorem minFold_le {α : Type} (l : CacheDict α) :
    ∀ best : ℕ × ℚ, (minFold best l).2 ≤ best.2 ∧
      ∀ p ∈ l, (minFold best l).2 ≤ p.2.created_at := by
  induction l with
  | nil => intro best; simp [minFold]
  | cons q rest ih =>
    intro best
    by_cases h : q.2.created_at < best.2
    · simp only [minFold, if_pos h]
      obtain ⟨h1, h2⟩ := ih (q.1, q.2.created_at)
      refine ⟨le_trans h1 (le_of_lt h), ?_⟩
      intro p hp
      rcases List.mem_cons.mp hp with hp | hp
      · exact hp ▸ h1
      · exact h2 p hp
    · simp only [minFold, if_neg h]
      obtain ⟨h1, h2⟩ := ih best
      refine ⟨h1, ?_⟩
      intro p hp
      rcases List.mem_cons.mp hp with hp | hp
      · exact hp ▸ le_trans h1 (not_lt.mp h)
      · exact h2 p hp

theorem minFold_mem {α : Type} (l : CacheDict α) :
    ∀ best : ℕ × ℚ, minFold best l = best ∨
      ∃ p ∈ l, minFold best l = (p.1, p.2.created_at) := by
  induction l with
  | nil => intro best; exact Or.inl rfl
  | cons q rest ih =>
    intro best
    by_cases h : q.2.created_at < best.2
    · simp only [minFold, if_pos h]
      rcases ih (q.1, q.2.created_at) with h1 | ⟨p, hp, h1⟩
      · exact Or.inr ⟨q, List.mem_cons_self _ _, h1⟩
      · exact Or.inr ⟨p, List.mem_cons_of_mem _ hp, h1⟩
    · simp only [minFold, if_neg h]
      rcases ih best with h1 | ⟨p, hp, h1⟩
      · exact Or.inl h1
      · exact Or.inr ⟨p, List.mem_cons_of_mem _ hp, h1⟩

theorem minByCreated_spec {α : Type} (c : CacheDict α) (k0 : ℕ)
    (h : minByCreated c = some k0) :
    ∃ e0, (k0, e0) ∈ c ∧ ∀ p ∈ c, e0.created_at ≤ p.2.created_at := by
  cases c with
  | nil => cases h
  | cons q rest =>
    simp only [minByCreated, Option.some_inj] at h
    obtain ⟨hle, hall⟩ := minFold_le rest (q.1, q.2.created_at)
    rcases minFold_mem rest (q.1, q.2.created_at) with hm | ⟨p, hp, hm⟩
    · refine ⟨q.2, ?_, ?_⟩
      · rw [← h, hm]
        exact List.mem_cons_self _ _
      · intro p hp
        rcases List.mem_cons.mp hp with hp | hp
        · simp [hp]
        · have := hall p hp
          rw [hm] at this
          exact this
    · refine ⟨p.2, ?_, ?_⟩
      · rw [← h, hm]
        exact List.mem_cons_of_mem _ hp
      · intro u hu
        have hval : (minFold (q.1, q.2.created_at) rest).2 = p.2.created_at := by
          rw [hm]
        rcases List.mem_cons.mp hu with hu | hu
        · rw [hu, ← hval]
          exact hle
        · rw [← hval]
          exact hall u hu

/-! ## Characterization lemmas for the cache operations -/

theorem cleanup_expired_of_lt {α : Type} (s : ResponseCache α) (now : ℚ)
    (h : now - s.last_cleanup < s.cleanup_interval) :
    s.cleanup_expired now = s := by
  unfold ResponseCache.cleanup_expired
  rw [if_pos h]

theorem cleanup_expired_cache_of_ge {α : Type} (s : ResponseCache α)
    (now : ℚ) (h : ¬ now - s.last_cleanup < s.cleanup_interval) :
    (s.cleanup_expired now).cache =
      s.cache.filter (fun p => !(p.2.is_expired now)) := by
  unfold ResponseCache.cleanup_expired
  rw [if_neg h]

theorem cleanup_expired_fields {α : Type} (s : ResponseCache α) (now : ℚ) :
    (s.cleanup_expired now).max_entries = s.max_entries ∧
    (s.cleanup_expired now).default_ttl = s.default_ttl ∧
    (s.cleanup_expired now).cleanup_interval = s.cleanup_interval := by
  unfold ResponseCache.cleanup_expired
  split
  · exact ⟨rfl, rfl, rfl⟩
  · exact ⟨rfl, rfl, rfl⟩

theorem length_cleanup_le {α : Type} (s : ResponseCache α) (now : ℚ) :
    (s.cleanup_expired now).cache.length ≤ s.cache.length := by
  unfold ResponseCache.cleanup_expired
  split
  · exact le_rfl
  · exact List.length_filter_le _ _

theorem nodup_keys_filter {α : Type} (c : CacheDict α)
    (q : ℕ × CacheEntry α → Bool) (h : (c.map Prod.fst).Nodup) :
    (((c.filter q).map Prod.fst)).Nodup :=
  h.sublist ((List.filter_sublist c).map Prod.fst)

theorem nodup_keys_dictDel {α : Type} (c : CacheDict α) (k : ℕ)
    (h : (c.map Prod.fst).Nodup) : ((dictDel c k).map Prod.fst).Nodup :=
  h.sublist ((List.eraseP_sublist c).map Prod.fst)

theorem nodup_keys_cleanup {α : Type} (s : ResponseCache α) (now : ℚ)
    (h : (s.cache.map Prod.fst).Nodup) :
    (((s.cleanup_expired now).cache.map Prod.fst)).Nodup := by
  unfold ResponseCache.cleanup_expired
  split
  · exact h
  · exact nodup_keys_filter _ _ h

theorem evict_lru_some_spec {α : Type} {s s' : ResponseCache α}
    (h : s.evict_lru = some s') :
    (s'.cache = s.cache ∨
      ∃ k0, minByCreated s.cache = some k0 ∧
        s'.cache = dictDel s.cache k0) ∧
    s'.last_cleanup = s.last_cleanup ∧
    s'.cleanup_interval = s.cleanup_interval ∧
    s'.max_entries = s.max_entries ∧ s'.default_ttl = s.default_ttl := by
  unfold ResponseCache.evict_lru at h
  by_cases hlen : s.cache.length < s.max_entries
  · rw [if_pos hlen] at h
    cases h
    exact ⟨Or.inl rfl, rfl, rfl, rfl, rfl⟩
  · rw [if_neg hlen] at h
    cases hmin : minByCreated s.cache with
    | none => rw [hmin] at h; cases h
    | some k0 =>
      rw [hmin] at h
      cases h
      exact ⟨Or.inr ⟨k0, rfl, rfl⟩, rfl, rfl, rfl, rfl⟩

theorem evict_lru_post {α : Type} {s s' : ResponseCache α}
    (hb : s.cache.length ≤ s.max_entries) (h : s.evict_lru = some s') :
    s'.cache.length < s.max_entries ∧ s'.max_entries = s.max_entries := by
  unfold ResponseCache.evict_lru at h
  by_cases hlen : s.cache.length < s.max_entries
  · rw [if_pos hlen] at h
    cases h
    exact ⟨hlen, rfl⟩
  · rw [if_neg hlen] at h
    cases hmin : minByCreated s.cache with
    | none => rw [hmin] at h; cases h
    | some k0 =>
      rw [hmin] at h
      obtain ⟨e0, hmem, -⟩ := minByCreated_spec s.cache k0 hmin
      have hdel : (dictDel s.cache k0).length = s.cache.length - 1 :=
        List.length_eraseP_of_mem hmem (beq_nat_refl k0)
      have hpos : 1 ≤ s.cache.length := List.length_pos.mpr
        (List.ne_nil_of_mem hmem)
      cases h
      refine ⟨?_, rfl⟩
      show (dictDel s.cache k0).length < s.max_entries
      omega

theorem set_some_spec {α : Type} {s : ResponseCache α} {k : ℕ} {v : α}
    {ttl : Option ℚ} {now : ℚ} {r : ℕ × ResponseCache α}
    (h : s.set k v ttl now = some r) :
    ∃ s2, (s.cleanup_expired now).evict_lru = some s2 ∧
      r = (k, { s2 with
        cache := dictSet s2.cache k
          ⟨v, now, ttl.getD s2.default_ttl, 0⟩
        stats := { s2.stats with
          total_entries :=
            (dictSet s2.cache k
              ⟨v, now, ttl.getD s2.default_ttl, 0⟩).length } }) := by
  simp only [ResponseCache.set] at h
  cases hev : (s.cleanup_expired now).evict_lru with
  | none => rw [hev] at h; cases h
  | some s2 =>
    rw [hev] at h
    exact ⟨s2, rfl, (Option.some_inj.mp h).symm⟩

theorem get_spec_hit {α : Type} (s : ResponseCache α) (k : ℕ) (now : ℚ)
    {e : CacheEntry α}
    (hfind : dictGet (s.cleanup_expired now).cache k = some e)
    (hexp : e.is_expired now = false) :
    (s.get k now).1 = some e.value := by
  simp only [ResponseCache.get, hfind, hexp, Bool.false_eq_true, if_false]

theorem get_spec_expired {α : Type} (s : ResponseCache α) (k : ℕ)
    (now : ℚ) {e : CacheEntry α}
    (hfind : dictGet (s.cleanup_expired now).cache k = some e)
    (hexp : e.is_expired now = true) :
    (s.get k now).1 = none ∧
    (s.get k now).2.cache = dictDel (s.cleanup_expired now).cache k := by
  simp only [ResponseCache.get, hfind, hexp, if_true]
  constructor
  · trivial
  · trivial

theorem get_spec_missing {α : Type} (s : ResponseCache α) (k : ℕ)
    (now : ℚ)
    (hfind : dictGet (s.cleanup_expired now).cache k = none) :
    (s.get k now).1 = none ∧
    (s.get k now).2.cache = (s.cleanup_expired now).cache := by
  simp only [ResponseCache.get, hfind]
  constructor
  · trivial
  · trivial

theorem set_preserves_bound {α : Type} {s : ResponseCache α} {k : ℕ}
    {v : α} {ttl : Option ℚ} {now : ℚ} {r : ℕ × ResponseCache α}
    (hb : s.cache.length ≤ s.max_entries) (h : s.set k v ttl now = some r) :
    r.2.cache.length ≤ r.2.max_entries ∧ r.2.max_entries = s.max_entries := by
  obtain ⟨s2, hev, hr⟩ := set_some_spec h
  have hb1 : (s.cleanup_expired now).cache.length ≤
      (s.cleanup_expired now).max_entries := by
    rw [(cleanup_expired_fields s now).1]
    exact le_trans (length_cleanup_le s now) hb
  obtain ⟨hlt, hmax⟩ := evict_lru_post hb1 hev
  have hmax2 : s2.max_entries = s.max_entries := by
    rw [hmax, (cleanup_expired_fields s now).1]
  have hlt2 : s2.cache.length < s2.max_entries := by
    rw [hmax]
    exact hlt
  subst hr
  refine ⟨?_, hmax2⟩
  show (dictSet s2.cache k _).length ≤ s2.max_entries
  calc (dictSet s2.cache k _).length ≤ s2.cache.length + 1 :=
        length_dictSet_le _ _ _
    _ ≤ s2.max_entries := hlt2

theorem applySets_bound {α : Type} :
    ∀ (ops : List (ℕ × α × Option ℚ × ℚ)) (s : ResponseCache α),
      s.cache.length ≤ s.max_entries →
      (applySets s ops).cache.length ≤ (applySets s ops).max_entries := by
  intro ops
  induction ops with
  | nil => intro s h; exact h
  | cons op rest ih =>
    intro s h
    obtain ⟨k, v, ttl, now⟩ := op
    simp only [applySets]
    cases hset : s.set k v ttl now with
    | some r =>
      exact ih r.2 (set_preserves_bound h hset).1
    | none =>
      refine ih _ ?_
      rw [(cleanup_expired_fields s now).1]
      exact le_trans (length_cleanup_le s now) h

/-- C1: a `get` hit always comes from a resident, non-expired entry; and
after `set(k, v, ttl := t)` at time `t0`, a `get(k)` strictly before
`t0 + t` is a hit returning `v`, while a `get(k)` strictly after `t0 + t`
is a miss that leaves no entry for `k` resident. -/
theorem cache_get_ttl_correct :
    (∀ (α : Type) (s : ResponseCache α) (k : ℕ) (now : ℚ) (v : α),
      (s.get k now).1 = some v →
      ∃ e, dictGet (s.cleanup_expired now).cache k = some e ∧
        e.is_expired now = false ∧ e.value = v) ∧
    (∀ (α : Type) (s : ResponseCache α) (k : ℕ) (v : α) (t t0 now : ℚ)
       (r : ℕ × ResponseCache α),
      (s.cache.map Prod.fst).Nodup →
      s.set k v (some t) t0 = some r →
      (now < t0 + t → (r.2.get k now).1 = some v) ∧
      (now > t0 + t → (r.2.get k now).1 = none ∧
        dictGet ((r.2.get k now).2.cache) k = none)) := by
  constructor
  · intro α s k now v hv
    cases hfind : dictGet (s.cleanup_expired now).cache k with
    | none =>
      rw [(get_spec_missing s k now hfind).1] at hv
      cases hv
    | some e =>
      cases hexp : e.is_expired now with
      | true =>
        rw [(get_spec_expired s k now hfind hexp).1] at hv
        cases hv
      | false =>
        rw [get_spec_hit s k now hfind hexp] at hv
        refine ⟨e, rfl, hexp, ?_⟩
        exact Option.some_inj.mp hv
  · intro α s k v t t0 now r hnd hset
    obtain ⟨s2, hev, hr⟩ := set_some_spec hset
    simp only [Option.getD_some] at hr
    have hnd1 : (((s.cleanup_expired t0).cache.map Prod.fst)).Nodup :=
      nodup_keys_cleanup s t0 hnd
    have hnd2 : ((s2.cache.map Prod.fst)).Nodup := by
      rcases (evict_lru_some_spec hev).1 with hc | ⟨k0, -, hc⟩
      · rw [hc]; exact hnd1
      · rw [hc]; exact nodup_keys_dictDel _ _ hnd1
    have hcache : r.2.cache = dictSet s2.cache k ⟨v, t0, t, 0⟩ := by
      rw [hr]
    constructor
    · intro hlt
      have hexp : (⟨v, t0, t, 0⟩ : CacheEntry α).is_expired now = false := by
        simp only [CacheEntry.is_expired, decide_eq_false_iff_not]
        exact not_lt.mpr (le_of_lt hlt)
      by_cases hcl : now - r.2.last_cleanup < r.2.cleanup_interval
      · have hfind : dictGet ((r.2.cleanup_expired now).cache) k =
            some ⟨v, t0, t, 0⟩ := by
          rw [cleanup_expired_of_lt r.2 now hcl, hcache]
          exact dictGet_dictSet_self _ _ _
        exact get_spec_hit r.2 k now hfind hexp
      · have hfind : dictGet ((r.2.cleanup_expired now).cache) k =
            some ⟨v, t0, t, 0⟩ := by
          rw [cleanup_expired_cache_of_ge r.2 now hcl, hcache]
          exact dictGet_filter_dictSet_pos _ _ _ _ (by simp [hexp])
        exact get_spec_hit r.2 k now hfind hexp
    · intro hgt
      have hexp : (⟨v, t0, t, 0⟩ : CacheEntry α).is_expired now = true := by
        simp only [CacheEntry.is_expired, decide_eq_true_eq]
        exact hgt
      have hnd3 : (((dictSet s2.cache k ⟨v, t0, t, 0⟩).map Prod.fst)).Nodup :=
        nodup_keys_dictSet _ _ _ hnd2
      by_cases hcl : now - r.2.last_cleanup < r.2.cleanup_interval
      · have hfind : dictGet ((r.2.cleanup_expired now).cache) k =
            some ⟨v, t0, t, 0⟩ := by
          rw [cleanup_expired_of_lt r.2 now hcl, hcache]
          exact dictGet_dictSet_self _ _ _
        obtain ⟨h1, h2⟩ := get_spec_expired r.2 k now hfind hexp
        refine ⟨h1, ?_⟩
        rw [h2, cleanup_expired_of_lt r.2 now hcl, hcache]
        exact dictGet_dictDel_self _ _ hnd3
      · have hqf : (fun p : ℕ × CacheEntry α => !(p.2.is_expired now))
            (k, ⟨v, t0, t, 0⟩) = false := by simp [hexp]
        have hfind : dictGet ((r.2.cleanup_expired now).cache) k = none := by
          rw [cleanup_expired_cache_of_ge r.2 now hcl, hcache]
          exact dictGet_filter_dictSet_neg _ _ _ _ hnd2 hqf
        obtain ⟨h1, h2⟩ := get_spec_missing r.2 k now hfind
        refine ⟨h1, ?_⟩
        rw [h2, cleanup_expired_cache_of_ge r.2 now hcl, hcache]
        exact dictGet_filter_dictSet_neg _ _ _ _ hnd2 hqf

/-- C1 witness: `set(k=1, v=7, ttl=10)` at time 0 on a fresh cache; a get
at time 5 hits with 7, a get at time 20 misses. -/
theorem cache_get_ttl_correct_witness :
    ((⟨300, 1000, 60, [(1, ⟨7, 0, 10, 0⟩)], ⟨0, 0, 0, 1⟩, 0⟩ :
        ResponseCache ℕ).get 1 5).1 = some 7 ∧
    ((⟨300, 1000, 60, [(1, ⟨7, 0, 10, 0⟩)], ⟨0, 0, 0, 1⟩, 0⟩ :
        ResponseCache ℕ).get 1 20).1 = none := by
  have hset : (ResponseCache.init ℕ 300 1000 60 0).set 1 7 (some 10) 0 =
      some (1, (⟨300, 1000, 60, [(1, ⟨7, 0, 10, 0⟩)], ⟨0, 0, 0, 1⟩, 0⟩ :
        ResponseCache ℕ)) := by
    norm_num [ResponseCache.init, ResponseCache.set,
      ResponseCache.cleanup_expired, ResponseCache.evict_lru, dictSet]
  have hnd : (((ResponseCache.init ℕ 300 1000 60 0).cache.map
      Prod.fst)).Nodup := by
    simp [ResponseCache.init]
  refine ⟨?_, ?_⟩
  · exact (cache_get_ttl_correct.2 ℕ (ResponseCache.init ℕ 300 1000 60 0)
      1 7 10 0 5 _ hnd hset).1 (by norm_num)
  · exact ((cache_get_ttl_correct.2 ℕ (ResponseCache.init ℕ 300 1000 60 0)
      1 7 10 0 20 _ hnd hset).2 (by norm_num)).1

/-- C2: across any sequence of `set` calls the number of resident entries
never exceeds `max_entries`; and `_evict_lru` on a cache at capacity
removes exactly one entry, namely (the first) one with the minimum
`created_at` — oldest-created, not least-recently-accessed. -/
theorem cache_capacity_eviction :
    (∀ (α : Type) (ops : List (ℕ × α × Option ℚ × ℚ))
       (s : ResponseCache α),
      s.cache.length ≤ s.max_entries →
      (applySets s ops).cache.length ≤ (applySets s ops).max_entries) ∧
    (∀ (α : Type) (s : ResponseCache α),
      s.cache.length = s.max_entries → 0 < s.max_entries →
      ∃ k0 e0, minByCreated s.cache = some k0 ∧ (k0, e0) ∈ s.cache ∧
        s.evict_lru = some { s with
          cache := dictDel s.cache k0
          stats := { s.stats with
            evictions := s.stats.evictions + 1 } } ∧
        (dictDel s.cache k0).length = s.cache.length - 1 ∧
        ∀ p ∈ s.cache, e0.created_at ≤ p.2.created_at) := by
  refine ⟨fun α ops s h => applySets_bound ops s h, ?_⟩
  intro α s hcap hpos
  have hne : s.cache ≠ [] := by
    intro hnil
    rw [hnil] at hcap
    simp only [List.length_nil] at hcap
    omega
  obtain ⟨q, rest, hc⟩ := List.exists_cons_of_ne_nil hne
  have hmin : ∃ k0, minByCreated s.cache = some k0 := by
    rw [hc]
    exact ⟨_, rfl⟩
  obtain ⟨k0, hmin⟩ := hmin
  obtain ⟨e0, hmem, hminimal⟩ := minByCreated_spec s.cache k0 hmin
  refine ⟨k0, e0, hmin, hmem, ?_, ?_, hminimal⟩
  · unfold ResponseCache.evict_lru
    rw [if_neg (by omega), hmin]
  · exact List.length_eraseP_of_mem hmem (beq_nat_refl k0)

/-- C2 witness: three inserts into a two-entry cache stay within the
bound, and a concrete full cache evicts its minimum-`created_at` entry. -/
theorem cache_capacity_eviction_witness :
    ((applySets (ResponseCache.init ℕ 300 2 60 0)
        [(1, 5, none, 0), (2, 6, none, 0), (3, 7, none, 0)]).cache.length ≤
      (applySets (ResponseCache.init ℕ 300 2 60 0)
        [(1, 5, none, 0), (2, 6, none, 0), (3, 7, none, 0)]).max_entries) ∧
    (∃ k0 e0,
      minByCreated ((⟨300, 1, 60, [(5, ⟨42, 3, 300, 0⟩)], ⟨0, 0, 0, 1⟩, 0⟩ :
          ResponseCache ℕ)).cache = some k0 ∧
      (k0, e0) ∈ ((⟨300, 1, 60, [(5, ⟨42, 3, 300, 0⟩)], ⟨0, 0, 0, 1⟩, 0⟩ :
          ResponseCache ℕ)).cache ∧
      ((⟨300, 1, 60, [(5, ⟨42, 3, 300, 0⟩)], ⟨0, 0, 0, 1⟩, 0⟩ :
          ResponseCache ℕ)).evict_lru = some
        { (⟨300, 1, 60, [(5, ⟨42, 3, 300, 0⟩)], ⟨0, 0, 0, 1⟩, 0⟩ :
            ResponseCache ℕ) with
          cache := dictDel ((⟨300, 1, 60, [(5, ⟨42, 3, 300, 0⟩)],
            ⟨0, 0, 0, 1⟩, 0⟩ : ResponseCache ℕ)).cache k0
          stats := { (⟨300, 1, 60, [(5, ⟨42, 3, 300, 0⟩)], ⟨0, 0, 0, 1⟩, 0⟩ :
              ResponseCache ℕ).stats with
            evictions := (⟨300, 1, 60, [(5, ⟨42, 3, 300, 0⟩)], ⟨0, 0, 0, 1⟩,
              0⟩ : ResponseCache ℕ).stats.evictions + 1 } } ∧
      (dictDel ((⟨300, 1, 60, [(5, ⟨42, 3, 300, 0⟩)], ⟨0, 0, 0, 1⟩, 0⟩ :
          ResponseCache ℕ)).cache k0).length =
        ((⟨300, 1, 60, [(5, ⟨42, 3, 300, 0⟩)], ⟨0, 0, 0, 1⟩, 0⟩ :
          ResponseCache ℕ)).cache.length - 1 ∧
      ∀ p ∈ ((⟨300, 1, 60, [(5, ⟨42, 3, 300, 0⟩)], ⟨0, 0, 0, 1⟩, 0⟩ :
          ResponseCache ℕ)).cache, e0.created_at ≤ p.2.created_at) :=
  ⟨cache_capacity_eviction.1 ℕ
      [(1, 5, none, 0), (2, 6, none, 0), (3, 7, none, 0)]
      (ResponseCache.init ℕ 300 2 60 0) (by simp [ResponseCache.init]),
   cache_capacity_eviction.2 ℕ
      (⟨300, 1, 60, [(5, ⟨42, 3, 300, 0⟩)], ⟨0, 0, 0, 1⟩, 0⟩ :
        ResponseCache ℕ) rfl (by norm_num)⟩

end SalesInsights
